import Mathlib

set_option maxRecDepth 8192

/-!
Verification of the step-orchestration core of the gaode_agent repository.

The Python sources embedded here are
`chat_agent_qwen/utils/step_context.py` (StepContext, placeholder
resolution) and `chat_agent_qwen/agent_self/agent.py` (plan validation,
the sequential execution loop of `Agent.run`, and
`Agent._extract_key_information`).

Payloads flowing between steps are JSON-like Python values (tool results,
parameter dictionaries).  They are modelled by `JValue` below.  Logging
calls in the source are side-effect free and are not modelled.  External
collaborators (the language model, the tool implementations, the tolerant
JSON reparser) are modelled as function parameters of the definitions
that call them.
-/

/-- A JSON-like Python value: `None`, `bool`, numbers, `str`, `list`,
`dict` (an insertion-ordered association list, as Python dicts are).
`num` carries the decimal literal of the number as parsed from the JSON
text; Python's `str()` of such a float prints the shortest round-trip
decimal, which for the short literals appearing in this development is
the literal itself. -/
inductive JValue where
  | null
  | bool (b : Bool)
  | num (lit : String)
  | str (s : String)
  | arr (items : List JValue)
  | obj (fields : List (String × JValue))

/-- Dictionary lookup (`d[k]` / `k in d`): first binding of the key. -/
def jget : List (String × JValue) → String → Option JValue
  | [], _ => none
  | (k, v) :: rest, key => if k == key then some v else jget rest key

/-- Python truthiness of a JSON-like value (`bool(v)`). -/
def truthy : JValue → Bool
  | .null => false
  | .bool b => b
  | .num lit => !(lit.toList.all fun c => c == '0' || c == '.' || c == '-' || c == '+')
  | .str s => !s.isEmpty
  | .arr items => !items.isEmpty
  | .obj fields => !fields.isEmpty

/-- Hexadecimal digit character (lower case), for escape sequences. -/
def hexDigit (n : Nat) : Char :=
  if n < 10 then Char.ofNat (48 + n) else Char.ofNat (87 + n)

/-- Escape of one character inside a `json.dumps` string literal. -/
def jsonEscapeChar (c : Char) : String :=
  if c == '\x22' then "\\\x22"
  else if c == '\\' then "\\\\"
  else if c == '\n' then "\\n"
  else if c == '\t' then "\\t"
  else if c == '\r' then "\\r"
  else if c == '\x08' then "\\b"
  else if c == '\x0c' then "\\f"
  else if c.toNat < 32 then "\\u00" ++ String.mk [hexDigit (c.toNat / 16), hexDigit (c.toNat % 16)]
  else String.mk [c]

/-- Escape of a whole string for `json.dumps`. -/
def jsonEscape (s : String) : String := String.join (s.toList.map jsonEscapeChar)

/-- Escape of one character inside a Python `repr` string literal. -/
def pyReprEscapeChar (c : Char) : String :=
  if c == '\\' then "\\\\"
  else if c == '\x27' then "\\\x27"
  else if c == '\n' then "\\n"
  else if c == '\t' then "\\t"
  else if c == '\r' then "\\r"
  else if c.toNat < 32 then "\\x" ++ String.mk [hexDigit (c.toNat / 16), hexDigit (c.toNat % 16)]
  else String.mk [c]

mutual

/-- Model of `json.dumps(v, ensure_ascii=False)` with the default
separators (`", "` between members, `": "` between key and value). -/
def jsonDumps : JValue → String
  | .null => "null"
  | .bool true => "true"
  | .bool false => "false"
  | .num lit => lit
  | .str s => "\x22" ++ jsonEscape s ++ "\x22"
  | .arr items => "[" ++ dumpsItems items ++ "]"
  | .obj fields => "\x7b" ++ dumpsFields fields ++ "\x7d"

/-- Comma-separated `json.dumps` of list items. -/
def dumpsItems : List JValue → String
  | [] => ""
  | [v] => jsonDumps v
  | v :: w :: rest => jsonDumps v ++ ", " ++ dumpsItems (w :: rest)

/-- Comma-separated `json.dumps` of dict entries. -/
def dumpsFields : List (String × JValue) → String
  | [] => ""
  | [(k, v)] => "\x22" ++ jsonEscape k ++ "\x22: " ++ jsonDumps v
  | (k, v) :: e :: rest =>
    "\x22" ++ jsonEscape k ++ "\x22: " ++ jsonDumps v ++ ", " ++ dumpsFields (e :: rest)

end

mutual

/-- Model of Python `repr(v)` for JSON-like values: single-quoted
strings, `True`/`False`/`None`, `[...]` and `{'k': v}` containers. -/
def pyRepr : JValue → String
  | .null => "None"
  | .bool true => "True"
  | .bool false => "False"
  | .num lit => lit
  | .str s => "\x27" ++ String.join (s.toList.map pyReprEscapeChar) ++ "\x27"
  | .arr items => "[" ++ reprItems items ++ "]"
  | .obj fields => "\x7b" ++ reprFields fields ++ "\x7d"

/-- Comma-separated `repr` of list items. -/
def reprItems : List JValue → String
  | [] => ""
  | [v] => pyRepr v
  | v :: w :: rest => pyRepr v ++ ", " ++ reprItems (w :: rest)

/-- Comma-separated `repr` of dict entries. -/
def reprFields : List (String × JValue) → String
  | [] => ""
  | [(k, v)] => "\x27" ++ k ++ "\x27: " ++ pyRepr v
  | (k, v) :: e :: rest => "\x27" ++ k ++ "\x27: " ++ pyRepr v ++ ", " ++ reprFields (e :: rest)

end

/-- Model of Python `str(v)`: the string itself for `str`, the decimal
literal for numbers, `True`/`False`/`None`, and `repr` for containers. -/
def pyStr : JValue → String
  | .str s => s
  | .num lit => lit
  | .bool true => "True"
  | .bool false => "False"
  | .null => "None"
  | .arr items => pyRepr (.arr items)
  | .obj fields => pyRepr (.obj fields)

/-! ## `step_context.resolve_path`: the forbidden-construct scanners

`resolve_path` rejects a path matching the regex `\.[A-Za-z_]\w*\s*\(`
(a method call) or the regex `[\*/%]|(?<!e)[\+\-]|[<>]` (arithmetic or
comparison).  Both scans are embedded exactly; the `\w` class is the
ASCII word-character class (the paths of this system are ASCII). -/

/-- Word character for the regex `\w` class (ASCII). -/
def isPyWordChar (c : Char) : Bool := c.isAlphanum || c == '_'

/-- Whitespace for the regex `\s` class. -/
def isPySpace (c : Char) : Bool :=
  c == ' ' || c == '\t' || c == '\n' || c == '\r' || c == '\x0b' || c == '\x0c'

/-- Does `\.[A-Za-z_]\w*\s*\(` match at the head of the character list?
The classes `\w`, `\s` and the literal `(` are pairwise disjoint, so the
greedy maximal runs are exactly what the regex engine commits to. -/
def methodCallAt : List Char → Bool
  | '.' :: c :: rest =>
    (c.isAlpha || c == '_') &&
      (match (rest.dropWhile isPyWordChar).dropWhile isPySpace with
       | '(' :: _ => true
       | _ => false)
  | _ => false

/-- Model of `re.search(r'\.[A-Za-z_]\w*\s*\(', path)`: the pattern
matches at some position of `path`. -/
def hasMethodCall (path : String) : Bool := path.toList.tails.any methodCallAt

/-- Scan for `[\*/%]|(?<!e)[\+\-]|[<>]`, carrying the previous character
for the look-behind `(?<!e)`. -/
def hasArithFrom : Option Char → List Char → Bool
  | _, [] => false
  | back, c :: rest =>
    if c == '*' || c == '/' || c == '%' || c == '<' || c == '>' then true
    else if (c == '+' || c == '-') && back != some 'e' then true
    else hasArithFrom (some c) rest

/-- Model of `re.search(r'[\*/%]|(?<!e)[\+\-]|[<>]', path)`. -/
def hasArith (path : String) : Bool := hasArithFrom none path.toList

/-! ## `resolve_path`: path splitting and the payload walk -/

/-- Separator characters of `re.split(r'\.|\[|\]', path)`. -/
def isSepChar (c : Char) : Bool := c == '.' || c == '[' || c == ']'

/-- Splitting on single separator characters, keeping empty pieces. -/
def splitSegs : List Char → List Char → List String
  | acc, [] => [String.mk acc.reverse]
  | acc, c :: rest =>
    if isSepChar c then String.mk acc.reverse :: splitSegs [] rest
    else splitSegs (c :: acc) rest

/-- Model of `re.split(r'\.|\[|\]', path)` followed by
`[p for p in parts if p]`. -/
def splitPath (path : String) : List String :=
  (splitSegs [] path.toList).filter (fun s => !(s == ""))

/-- Model of Python `str.isdigit` for the ASCII segments of a path. -/
def isDigits (s : String) : Bool := !s.isEmpty && s.toList.all Char.isDigit

/-- Value of a run of decimal digit characters (`int(part)`). -/
def natOfDigitsAux (acc : Nat) : List Char → Nat
  | [] => acc
  | c :: rest => natOfDigitsAux (10 * acc + (c.toNat - 48)) rest

/-- Value of a digit string. -/
def natOfDigits (ds : List Char) : Nat := natOfDigitsAux 0 ds

/-- The legacy-compatibility rewrap of `resolve_path` (source lines
131-155): when the first path segment is `results`, `paths` or `pois`
and the payload lacks that key, the payload is remapped
(`pois` list reused as `results`, `routes` as `paths`, `results` as
`pois`) or a single record is wrapped into a one-element list. -/
def compatAlias (obj : JValue) (firstKey : String) : JValue :=
  match obj with
  | .obj fields =>
    if (firstKey == "results" || firstKey == "paths" || firstKey == "pois")
        && (jget fields firstKey).isNone then
      if firstKey == "results" then
        match jget fields "pois" with
        | some (.arr l) => .obj [("results", .arr l)]
        | _ =>
          if (jget fields "location").isSome || (jget fields "formatted_address").isSome
              || (jget fields "province").isSome || (jget fields "city").isSome
              || (jget fields "district").isSome then
            .obj [("results", .arr [.obj fields])]
          else .obj fields
      else if firstKey == "paths" then
        match jget fields "routes" with
        | some (.arr l) => .obj [("paths", .arr l)]
        | _ =>
          if (jget fields "steps").isSome || (jget fields "distance").isSome
              || (jget fields "duration").isSome then
            .obj [("paths", .arr [.obj fields])]
          else .obj fields
      else
        match jget fields "results" with
        | some (.arr l) => .obj [("pois", .arr l)]
        | _ => .obj fields
    else .obj fields
  | v => v

/-- One step of the payload walk: a digit segment indexes a list
(out-of-range indexes resolve to `None` with a logged warning, never an
exception), a name segment looks up a dict key (a missing key resolves
to `None` with a logged warning).  A name segment applied to a non-dict
JSON payload reaches the `hasattr` branch of the source; JSON payload
data carries no such attributes, which is the warning branch resolving
to `None`. -/
def walkSeg (current : JValue) (seg : String) : Option JValue :=
  if isDigits seg then
    match current with
    | .arr items =>
      let index := natOfDigits seg.toList
      if h : index < items.length then some (items.get ⟨index, h⟩) else none
    | _ => none
  else
    match current with
    | .obj fields => jget fields seg
    | _ => none

/-- The segment-by-segment walk of `resolve_path`, with the source's
`if current is None: return None` check after every step (`JValue.null`
is Python `None`). -/
def walkPath : JValue → List String → Option JValue
  | .null, _ => none
  | current, [] => some current
  | current, seg :: rest =>
    match walkSeg current seg with
    | none => none
    | some next => walkPath next rest

/-- The `ValueError`s raised by `resolve_path` (the two forbidden
construct checks). -/
inductive PathError where
  | methodCall (path : String)
  | arithExpr (path : String)
deriving DecidableEq

/-- Model of `resolve_path(obj, path)` (source lines 85-198): empty path
returns the object; a method call or arithmetic in the path raises; the
path is then split on `.` `[` `]`, the compatibility rewrap may apply to
the first segment, and the payload is walked.  `Except.error` is a
raised `ValueError`; `Except.ok none` is a Python `None` result. -/
def resolve_path (obj : JValue) (path : String) : Except PathError (Option JValue) :=
  if path == "" then .ok (some obj)
  else if hasMethodCall path then .error (.methodCall path)
  else if hasArith path then .error (.arithExpr path)
  else
    let parts := splitPath path
    let wrapped := match parts with
      | [] => obj
      | firstKey :: _ => compatAlias obj firstKey
    .ok (walkPath wrapped parts)

/-! ## `replace_placeholders`: the placeholder scanner

The source substitutes with
`re.sub(r'\{step_(\d+)_result(?:\.([^\}]+))?\}', replacer, value)`.
The scan below is the regex's leftmost non-overlapping match semantics:
at each position the pattern either matches (the digit run and the path
run are maximal, and the optional path group either commits or the whole
position fails, since the involved character classes exclude the
delimiters that follow them) or the scan moves one character right.
Replacement text is emitted verbatim and never rescanned, exactly as
`re.sub` does. -/

/-- Match a literal character sequence, returning the rest. -/
def matchLit : List Char → List Char → Option (List Char)
  | [], rest => some rest
  | _ :: _, [] => none
  | c :: cs, d :: ds => if c == d then matchLit cs ds else none

/-- Longest positive-class run: the matched run and the rest. -/
def spanChars (p : Char → Bool) : List Char → List Char × List Char
  | [] => ([], [])
  | c :: cs =>
    if p c then ((spanChars p cs).1.cons c, (spanChars p cs).2)
    else ([], c :: cs)

/-- Match `\{step_(\d+)_result(?:\.([^\}]+))?\}` at the head of the
list; on success, the referenced step index, the optional path, and the
rest of the input after the match.  The digit run and the path run are
maximal; when the optional path group cannot complete, the position
fails altogether (the character after `_result` is `.` rather than the
`\x7d` the group-free pattern would need). -/
def matchPlaceholder : List Char → Option (Nat × Option String × List Char)
  | [] => none
  | c :: r0 =>
    if c == '\x7b' then
      match matchLit "step_".toList r0 with
      | none => none
      | some r1 =>
        match spanChars Char.isDigit r1 with
        | ([], _) => none
        | (d :: ds, r2) =>
          match matchLit "_result".toList r2 with
          | none => none
          | some r3 =>
            match r3 with
            | [] => none
            | c3 :: r4 =>
              if c3 == '.' then
                match spanChars (fun x => !(x == '\x7d')) r4 with
                | ([], _) => none
                | (p :: ps, r5) =>
                  match r5 with
                  | [] => none
                  | c5 :: r6 =>
                    if c5 == '\x7d' then
                      some (natOfDigits (d :: ds), some (String.mk (p :: ps)), r6)
                    else none
              else if c3 == '\x7d' then some (natOfDigits (d :: ds), none, r4)
              else none
    else none

/-- The `ValueError`s that `replace_placeholders` raises: a forward or
self reference, or an error propagated from `resolve_path`. -/
inductive PHError where
  | forwardRef (currentStep stepIdx : Nat)
  | pathErr (e : PathError)
deriving DecidableEq

/-- Step results store of a `StepContext` (Python
`Dict[int, Any]`, insertion ordered). -/
def lookupResult : List (Nat × JValue) → Nat → Option JValue
  | [], _ => none
  | (k, v) :: rest, idx => if k == idx then some v else lookupResult rest idx

/-- The `replacer` inner function of `replace_placeholders` (source
lines 206-237) for one matched placeholder: reject a reference to the
current or a future step; a missing (or `None`) recorded result becomes
the empty string; with a path, resolve it (`None` becomes the empty
string, a found value is rendered with `str()`); without a path the
whole result is rendered (`json.dumps` for dicts and lists, `str()`
otherwise). -/
def replacerFn (results : List (Nat × JValue)) (currentStep stepIdx : Nat)
    (pathOpt : Option String) : Except PHError String :=
  if currentStep ≤ stepIdx then .error (.forwardRef currentStep stepIdx)
  else
    match lookupResult results stepIdx with
    | none => .ok ""
    | some .null => .ok ""
    | some result =>
      match pathOpt with
      | some path =>
        match resolve_path result path with
        | .error e => .error (.pathErr e)
        | .ok none => .ok ""
        | .ok (some .null) => .ok ""
        | .ok (some resolved) => .ok (pyStr resolved)
      | none =>
        match result with
        | .obj fields => .ok (jsonDumps (.obj fields))
        | .arr items => .ok (jsonDumps (.arr items))
        | v => .ok (pyStr v)

/-- The `re.sub` scan over a character list.  Each loop iteration
consumes at least one character, so the list length bounds the number of
iterations; `fuel` makes the recursion structural with unchanged
semantics whenever `fuel ≥` the length of the input. -/
def subGo (results : List (Nat × JValue)) (currentStep : Nat) :
    Nat → List Char → Except PHError (List Char)
  | _, [] => .ok []
  | 0, l => .ok l
  | fuel + 1, c :: cs =>
    match matchPlaceholder (c :: cs) with
    | some (stepIdx, pathOpt, rest) =>
      match replacerFn results currentStep stepIdx pathOpt with
      | .error e => .error e
      | .ok s =>
        match subGo results currentStep fuel rest with
        | .error e => .error e
        | .ok tail => .ok (s.toList ++ tail)
    | none =>
      match subGo results currentStep fuel cs with
      | .error e => .error e
      | .ok tail => .ok (c :: tail)

/-- The `re.sub` scan with its canonical (always sufficient) fuel. -/
def subPH (results : List (Nat × JValue)) (currentStep : Nat)
    (l : List Char) : Except PHError (List Char) :=
  subGo results currentStep l.length l

/-- Placeholder substitution over one string value. -/
def replaceString (results : List (Nat × JValue)) (currentStep : Nat)
    (s : String) : Except PHError String :=
  match subPH results currentStep s.toList with
  | .error e => .error e
  | .ok l => .ok (String.mk l)

mutual

/-- The `replace_value` inner function of `replace_placeholders`:
strings are scanned for placeholders, dicts and lists are rewritten
recursively, every other value passes through unchanged.  A raised
`ValueError` propagates outward. -/
def replace_value (results : List (Nat × JValue)) (currentStep : Nat) :
    JValue → Except PHError JValue
  | .str s =>
    match replaceString results currentStep s with
    | .error e => .error e
    | .ok t => .ok (.str t)
  | .obj fields =>
    match replaceFields results currentStep fields with
    | .error e => .error e
    | .ok fs => .ok (.obj fs)
  | .arr items =>
    match replaceItems results currentStep items with
    | .error e => .error e
    | .ok vs => .ok (.arr vs)
  | v => .ok v

/-- Recursive substitution through a dict, in insertion order. -/
def replaceFields (results : List (Nat × JValue)) (currentStep : Nat) :
    List (String × JValue) → Except PHError (List (String × JValue))
  | [] => .ok []
  | (k, v) :: rest =>
    match replace_value results currentStep v with
    | .error e => .error e
    | .ok w =>
      match replaceFields results currentStep rest with
      | .error e => .error e
      | .ok ws => .ok ((k, w) :: ws)

/-- Recursive substitution through a list. -/
def replaceItems (results : List (Nat × JValue)) (currentStep : Nat) :
    List JValue → Except PHError (List JValue)
  | [] => .ok []
  | v :: rest =>
    match replace_value results currentStep v with
    | .error e => .error e
    | .ok w =>
      match replaceItems results currentStep rest with
      | .error e => .error e
      | .ok ws => .ok (w :: ws)

end

/-- The execution context of `step_context.py`: per-step results, the
auto-extracted metadata, and the running step count. -/
structure StepContext where
  results : List (Nat × JValue) := []
  metadata : List (String × JValue) := []
  step_count : Nat := 0

/-- Insert-or-replace for the integer-keyed results dict. -/
def setAssocNat : List (Nat × JValue) → Nat → JValue → List (Nat × JValue)
  | [], k, v => [(k, v)]
  | (k0, v0) :: rest, k, v =>
    if k0 == k then (k0, v) :: rest else (k0, v0) :: setAssocNat rest k v

/-- Insert-or-replace for the string-keyed metadata dict. -/
def setAssocStr : List (String × JValue) → String → JValue → List (String × JValue)
  | [], k, v => [(k, v)]
  | (k0, v0) :: rest, k, v =>
    if k0 == k then (k0, v) :: rest else (k0, v0) :: setAssocStr rest k v

/-- Model of `StepContext.set_result` (source lines 39-60): store the
result at the step index, bump the step count, and auto-extract the
common Gaode fields into the metadata. -/
def set_result (ctx : StepContext) (step_index : Nat) (result : JValue) : StepContext :=
  let results := setAssocNat ctx.results step_index result
  let count := max ctx.step_count (step_index + 1)
  match result with
  | .obj fields =>
    let md0 := ctx.metadata
    let md1 := match jget fields "location" with
      | some v => setAssocStr md0 ("step_" ++ toString step_index ++ "_location") v
      | none => md0
    let md2 := match jget fields "formatted_address" with
      | some v => setAssocStr md1 ("step_" ++ toString step_index ++ "_address") v
      | none => md1
    let md3 := match jget fields "distance" with
      | some v => setAssocStr md2 ("step_" ++ toString step_index ++ "_distance") v
      | none => md2
    let md4 := match jget fields "duration" with
      | some v => setAssocStr md3 ("step_" ++ toString step_index ++ "_duration") v
      | none => md3
    { results := results, metadata := md4, step_count := count }
  | _ => { results := results, metadata := ctx.metadata, step_count := count }

/-- Model of `StepContext.replace_placeholders(params, current_step)`:
recursive placeholder substitution through the parameter dict.  Only the
recorded results take part in resolution. -/
def replace_placeholders (ctx : StepContext) (params : List (String × JValue))
    (current_step : Nat) : Except PHError (List (String × JValue)) :=
  replaceFields ctx.results current_step params




/-! ## The plan data model and the plan validator (`Agent.plan_tasks`) -/

/-- The `TaskStep` pydantic model of `step_context.py`: a goal, a tool
name, and a parameter dict defaulting to empty. -/
structure TaskStep where
  goal : String
  tool_name : String
  parameters : List (String × JValue)

/-- Model of `TaskStep(**s)` on one raw descriptor: the descriptor must
be a mapping whose `goal` and `tool_name` are strings and whose
`parameters`, when present, is a mapping (pydantic validation); extra
keys are ignored. -/
def descriptorToStep : JValue → Option TaskStep
  | .obj fields =>
    match jget fields "goal", jget fields "tool_name" with
    | some (.str g), some (.str t) =>
      match jget fields "parameters" with
      | some (.obj ps) => some { goal := g, tool_name := t, parameters := ps }
      | none => some { goal := g, tool_name := t, parameters := [] }
      | some _ => none
    | _, _ => none
  | _ => none

/-- The comprehension `[TaskStep(**s) for s in steps_data]`: all
descriptors in order, or `none` when any of them raises. -/
def stepsOfList : List JValue → Option (List TaskStep)
  | [] => some []
  | d :: ds =>
    match descriptorToStep d with
    | none => none
    | some s =>
      match stepsOfList ds with
      | none => none
      | some rest => some (s :: rest)

/-- Model of the validation tail of `Agent.plan_tasks` (source lines
259-269), applied to the parsed model output: anything that is not a
non-empty list yields no steps, and a single invalid descriptor makes
the whole comprehension `[TaskStep(**s) for s in steps_data]` raise,
which the `except` turns into no steps. -/
def plan_tasks (steps_data : Option JValue) : List TaskStep :=
  match steps_data with
  | some (.arr (d :: ds)) =>
    match stepsOfList (d :: ds) with
    | some steps => steps
    | none => []
  | _ => []

/-! ## The execution engine (`Agent.run`, source lines 519-599) -/

/-- The two failure strategies of `ExecutionStrategy`. -/
inductive ExecutionStrategy where
  | fail_fast
  | graceful_degrade
deriving DecidableEq

/-- The final reply when parameter resolution fails under `FailFast`
(source line 543). -/
def paramFailReply (goal : String) : String :=
  "抱歉，任务在\x27" ++ goal ++ "\x27步骤中断，因为参数准备失败。"

/-- The final reply when a tool fails under `FailFast` (source line
560); `{result}` is Python `str()` of the failure payload. -/
def toolFailReply (goal : String) (result : JValue) : String :=
  "抱歉，在执行\x27" ++ goal ++ "\x27时遇到问题：" ++ pyStr result ++ "\n\n请尝试重新描述您的需求。"

/-- How a plan execution ended.  `noPlan` and `aborted` return to the
caller before result integration; `completed` and `degraded` fall
through to `integrate_results_stream`. -/
inductive RunOutcome where
  | noPlan
  | completed
  | degraded (failedStep : Nat)
  | aborted (failedStep : Nat) (reply : String)
deriving DecidableEq

/-- Whether control reaches result integration for this outcome. -/
def integrationRuns : RunOutcome → Bool
  | .completed => true
  | .degraded _ => true
  | _ => false

/-- The state the run loop accumulates: the step context, the
`steps_results` list handed to integration, the trace of step indices on
which `execute_step` was invoked, and the outcome. -/
structure RunState where
  ctx : StepContext
  steps_results : List (TaskStep × JValue)
  invoked : List Nat
  outcome : RunOutcome

/-- The result-saving block of the loop (source lines 572-587): a string
result is reparsed (`RobustJSONParser.parse`, supplied as the external
function `jparse`) and stored when that yields a non-empty dict,
otherwise wrapped as `{"raw": ..., "success": ...}`; a dict is stored
as is; any other value is wrapped with its `str()` rendering. -/
def storeResult (jparse : String → Option JValue) (ctx : StepContext) (i : Nat)
    (result : JValue) (success : Bool) : StepContext :=
  match result with
  | .str s =>
    match jparse s with
    | some (.obj (f :: fs)) => set_result ctx i (.obj (f :: fs))
    | _ => set_result ctx i (.obj [("raw", .str s), ("success", .bool success)])
  | .obj fields => set_result ctx i (.obj fields)
  | v => set_result ctx i (.obj [("raw", .str (pyStr v)), ("success", .bool success)])

/-- The `for i, step in enumerate(steps)` loop of `Agent.run` (source
lines 522-590).  `tex` is the external `execute_step` (tool lookup and
invocation): given the step index and the resolved step it returns the
`(success, result)` pair.  Parameter resolution failure under `FailFast`
returns immediately with the param-fail reply and under
`GracefulDegrade` synthesizes `success = False` and falls into the same
failed-step branch, which breaks to integration; a tool failure under
`FailFast` returns with the tool-fail reply.  Only a successful step
reaches `set_result` and `steps_results.append`. -/
def runLoop (jparse : String → Option JValue) (tex : Nat → TaskStep → Bool × JValue)
    (strategy : ExecutionStrategy) :
    List TaskStep → Nat → StepContext → List (TaskStep × JValue) → List Nat → RunState
  | [], _, ctx, acc, inv => ⟨ctx, acc, inv, .completed⟩
  | step :: rest, i, ctx, acc, inv =>
    match replace_placeholders ctx step.parameters i with
    | .error _ =>
      match strategy with
      | .fail_fast => ⟨ctx, acc, inv, .aborted i (paramFailReply step.goal)⟩
      | .graceful_degrade => ⟨ctx, acc, inv, .degraded i⟩
    | .ok resolvedParams =>
      let resolvedStep : TaskStep := { step with parameters := resolvedParams }
      let r := tex i resolvedStep
      if r.1 then
        runLoop jparse tex strategy rest (i + 1)
          (storeResult jparse ctx i r.2 r.1) (acc ++ [(resolvedStep, r.2)]) (inv ++ [i])
      else
        match strategy with
        | .fail_fast => ⟨ctx, acc, inv ++ [i], .aborted i (toolFailReply step.goal r.2)⟩
        | .graceful_degrade => ⟨ctx, acc, inv ++ [i], .degraded i⟩

/-- A whole plan execution from the complex-task branch of `Agent.run`:
an empty plan returns the no-plan reply before any tool invocation
(source lines 501-506); otherwise the loop runs from step 0 with a fresh
`StepContext`. -/
def runPlan (jparse : String → Option JValue) (tex : Nat → TaskStep → Bool × JValue)
    (strategy : ExecutionStrategy) (steps : List TaskStep) : RunState :=
  match steps with
  | [] => ⟨{}, [], [], .noPlan⟩
  | s :: rest => runLoop jparse tex strategy (s :: rest) 0 {} [] []

/-- Plan parsing composed with execution: the parsed model output is
validated by `plan_tasks` and the resulting steps are run. -/
def runFromPlan (jparse : String → Option JValue) (tex : Nat → TaskStep → Bool × JValue)
    (strategy : ExecutionStrategy) (steps_data : Option JValue) : RunState :=
  runPlan jparse tex strategy (plan_tasks steps_data)

/-! ## The result extractor (`Agent._extract_key_information`) -/

/-- Does `hay` start with `pat` (Python `str.startswith`)? -/
def strStarts (hay pat : String) : Bool := (matchLit pat.toList hay.toList).isSome

/-- Does `hay` end with `pat` (Python `str.endswith`)? -/
def strEnds (hay pat : String) : Bool :=
  (matchLit pat.toList.reverse hay.toList.reverse).isSome

/-- Does `hay` contain `pat` (Python `pat in hay`)? -/
def strContainsSub (hay pat : String) : Bool :=
  hay.toList.tails.any fun t => (matchLit pat.toList t).isSome

/-- Python `str.lower` (ASCII; the names involved are unaffected). -/
def toLowerStr (s : String) : String := String.mk (s.toList.map Char.toLower)

/-- The manifest built by `_extract_key_information` (source lines
754-763).  `file_paths` entries are the `(type, path)` dicts,
`routes` entries the `(tool, data)` dicts, `web_search_images` the
`(query, image_urls)` dicts, and `poi_images` the name-to-URL-list
dict, all kept in insertion order. -/
structure Manifest where
  weather_data : List JValue := []
  file_paths : List (String × String) := []
  map_paths : List String := []
  routes : List (String × JValue) := []
  pois : List JValue := []
  images : List String := []
  web_search_images : List (String × List String) := []
  poi_images : List (String × List String) := []

/-- Characters allowed in the URL body class `[^\s<>"]`. -/
def urlBodyChar (c : Char) : Bool :=
  !(isPySpace c || c == '<' || c == '>' || c == '\x22')

/-- The image extension alternation `(?:jpg|jpeg|png|gif|webp)`, in the
regex's left-to-right order. -/
def extAlts : List (List Char) := ["jpg".toList, "jpeg".toList, "png".toList, "gif".toList, "webp".toList]

/-- First extension alternative matching at the head of the input. -/
def firstExt : List (List Char) → List Char → Option (List Char × List Char)
  | [], _ => none
  | alt :: alts, cs =>
    match matchLit alt cs with
    | some rest => some (alt, rest)
    | none => firstExt alts cs

/-- Match `\.(?:jpg|jpeg|png|gif|webp)` at the head of the input. -/
def matchExtAt : List Char → Option (List Char × List Char)
  | '.' :: cs =>
    match firstExt extAlts cs with
    | some (alt, rest) => some ('.' :: alt, rest)
    | none => none
  | _ => none

/-- The lazy quantifier `[^\s<>"]+?` followed by the extension: at each
point first try the extension, else consume one more body character. -/
def lazyBody : Nat → List Char → List Char → Option (List Char × List Char)
  | 0, _, _ => none
  | fuel + 1, accRev, cs =>
    match matchExtAt cs with
    | some (ext, rest) => some (accRev.reverse ++ ext, rest)
    | none =>
      match cs with
      | c :: rest => if urlBodyChar c then lazyBody fuel (c :: accRev) rest else none
      | [] => none

/-- Match `https?://[^\s<>"]+?\.(?:jpg|jpeg|png|gif|webp)` at the head
of the input, returning the matched text and the rest. -/
def matchUrlAt (l : List Char) : Option (List Char × List Char) :=
  match matchLit "http".toList l with
  | none => none
  | some r1 =>
    let withHead : List Char → List Char → Option (List Char × List Char) := fun head r2 =>
      match r2 with
      | c :: rest =>
        if urlBodyChar c then
          match lazyBody (rest.length + 1) [c] rest with
          | some (bodyExt, after) => some (head ++ bodyExt, after)
          | none => none
        else none
      | [] => none
    match matchLit "s://".toList r1 with
    | some r2 => withHead "https://".toList r2
    | none =>
      match matchLit "://".toList r1 with
      | some r2 => withHead "http://".toList r2
      | none => none

/-- The scan of `re.findall`: leftmost non-overlapping matches. -/
def findUrlsGo : Nat → List Char → List String
  | 0, _ => []
  | _, [] => []
  | fuel + 1, c :: cs =>
    match matchUrlAt (c :: cs) with
    | some (txt, rest) => String.mk txt :: findUrlsGo fuel rest
    | none => findUrlsGo fuel cs

/-- Model of
`re.findall(r'https?://[^\s<>"]+?\.(?:jpg|jpeg|png|gif|webp)', result)`. -/
def findImageUrls (s : String) : List String := findUrlsGo s.toList.length s.toList

/-- One iteration of the extraction loop of `_extract_key_information`
(source lines 765-843), updating the manifest from one
`(step, result)` pair.  The tool-name dispatch order is the source's
`if`/`elif` order.  Non-sequence values where the source calls
`list.extend` or slices would raise in Python and are not produced by
the tools; they leave the manifest unchanged here. -/
def extractStep (m : Manifest) (step : TaskStep) (result : JValue) : Manifest :=
  let tool := step.tool_name
  if tool == "maps_weather" then
    match result with
    | .obj fields =>
      match jget fields "forecasts" with
      | some (.arr l) => { m with weather_data := m.weather_data ++ l }
      | _ => m
    | _ => m
  else if tool == "file_tool" then
    match result with
    | .str s =>
      if !(s == "") && !(strStarts s "错误") then
        let ftype :=
          if strContainsSub s ".html" then "HTML文档"
          else if strContainsSub s ".pdf" then "PDF文档"
          else if strContainsSub s ".xlsx" || strContainsSub s ".xls" then "Excel表格"
          else "行程文档"
        { m with file_paths := m.file_paths ++ [(ftype, s)] }
      else m
    | _ => m
  else if tool == "visualization_tool" then
    match result with
    | .str s =>
      if !(s == "") && strEnds s ".html" && !(strStarts s "错误") then
        { m with map_paths := m.map_paths ++ [s] }
      else m
    | _ => m
  else if strContainsSub tool "direction" then
    match result with
    | .obj fields =>
      if (jget fields "paths").isSome || (jget fields "route").isSome then
        { m with routes := m.routes ++ [(tool, .obj fields)] }
      else m
    | _ => m
  else if tool == "maps_text_search" then
    match result with
    | .obj fields =>
      match jget fields "pois" with
      | some (.arr l) => { m with pois := m.pois ++ l.take 5 }
      | _ => m
    | _ => m
  else if tool == "web_search" then
    match result with
    | .obj fields =>
      let imageUrls := match jget fields "image_urls" with
        | some v => if truthy v then v else .arr []
        | none => .arr []
      let queryText := match jget step.parameters "query" with
        | some (.str q) => q
        | _ => ""
      match imageUrls with
      | .arr (u :: us) =>
        let urls := ((u :: us).take 5).filterMap fun x =>
          match x with
          | .str s => some s
          | _ => none
        let m1 := { m with images := m.images ++ urls }
        if !(queryText == "") then
          { m1 with web_search_images := m1.web_search_images ++ [(queryText, urls)] }
        else m1
      | _ => m
    | .str s =>
      match findImageUrls s with
      | [] => m
      | u :: us => { m with images := m.images ++ (u :: us).take 3 }
    | _ => m
  else m

/-- The poi name collected by the binding pass: `poi.get("name") or
poi.get("title")`, kept when it is a non-empty string. -/
def poiNameOf : JValue → Option String
  | .obj fields =>
    let nm := match jget fields "name" with
      | some v => if truthy v then v else (jget fields "title").getD .null
      | none => (jget fields "title").getD .null
    match nm with
    | .str s => if s == "" then none else some s
    | _ => none
  | _ => none

/-- Append the URLs not already present to a bucket (the
`if u not in bucket: bucket.append(u)` loop). -/
def addUnique (bucket : List String) : List String → List String
  | [] => bucket
  | u :: us =>
    if bucket.contains u then addUnique bucket us else addUnique (bucket ++ [u]) us

/-- `poi_images.setdefault(target, [])` followed by the append loop. -/
def setdefaultAdd (pim : List (String × List String)) (target : String)
    (urls : List String) : List (String × List String) :=
  match pim with
  | [] => [(target, addUnique [] urls)]
  | (k, bucket) :: rest =>
    if k == target then (k, addUnique bucket urls) :: rest
    else (k, bucket) :: setdefaultAdd rest target urls

/-- First poi name whose lowercase form contains, or is contained in,
the query. -/
def findTarget (poiNames : List String) (q : String) : Option String :=
  poiNames.find? fun pn =>
    let pl := toLowerStr pn
    strContainsSub q pl || strContainsSub pl q

/-- The loop over `web_search_images` pairs binding images to pois. -/
def bindGo (pim : List (String × List String)) (poiNames : List String) :
    List (String × List String) → List (String × List String)
  | [] => pim
  | (query, urls) :: rest =>
    let q := toLowerStr query
    if q == "" || urls.isEmpty then bindGo pim poiNames rest
    else
      match findTarget poiNames q with
      | some target => bindGo (setdefaultAdd pim target urls) poiNames rest
      | none => bindGo pim poiNames rest

/-- The image-to-poi binding pass of `_extract_key_information` (source
lines 845-871). -/
def bindPoiImages (m : Manifest) : Manifest :=
  let poiNames := m.pois.filterMap poiNameOf
  if poiNames.isEmpty || m.web_search_images.isEmpty then m
  else { m with poi_images := bindGo m.poi_images poiNames m.web_search_images }

/-- Model of `Agent._extract_key_information(steps_results)`: fold the
extraction loop over the ordered step results, then bind web-search
images to pois. -/
def extract_key_information (steps_results : List (TaskStep × JValue)) : Manifest :=
  bindPoiImages (steps_results.foldl (fun m sr => extractStep m sr.1 sr.2) {})



/-! ## Definitions supporting the statements of the claims -/

/-- The character sequence of a canonical placeholder
`"\x7bstep_" ++ ds ++ "_result" [ ++ "." ++ path ] ++ "\x7d"` with an
explicit digit run `ds` for the referenced step index. -/
def phChars (ds : List Char) (pathOpt : Option String) : List Char :=
  '\x7b' :: ("step_".toList ++ ds ++ "_result".toList ++
    (match pathOpt with
     | some q => '.' :: q.toList
     | none => []) ++ ['\x7d'])

/-- The canonical placeholder as a string. -/
def phString (ds : List Char) (pathOpt : Option String) : String :=
  String.mk (phChars ds pathOpt)

/-- A path component acceptable to the placeholder grammar: absent, or
non-empty and free of the closing brace. -/
def okPathB : Option String → Bool
  | none => true
  | some q => !q.toList.isEmpty && q.toList.all fun c => !(c == '\x7d')

/-- A digit run usable as a step reference: non-empty, all digits. -/
def okDigitsB (ds : List Char) : Bool := !ds.isEmpty && ds.all Char.isDigit

/-- No suffix of the character list matches the placeholder pattern:
such a string is outside the placeholder grammar everywhere. -/
def noPH (l : List Char) : Bool := l.tails.all fun t => (matchPlaceholder t).isNone

/-- The state reached after the first `k` steps of a plan when every one
of them succeeds (parameter resolution succeeds and the tool reports
success): the step context, the accumulated `steps_results`, and the
invocation trace; `none` when some step among the first `k` is missing
or fails.  This replays exactly the success path of `runLoop`. -/
def execPrefix (jparse : String → Option JValue) (tex : Nat → TaskStep → Bool × JValue)
    (steps : List TaskStep) :
    Nat → Option (StepContext × List (TaskStep × JValue) × List Nat)
  | 0 => some ({}, [], [])
  | k + 1 =>
    match execPrefix jparse tex steps k with
    | none => none
    | some (ctx, acc, inv) =>
      match steps[k]? with
      | none => none
      | some step =>
        match replace_placeholders ctx step.parameters k with
        | .error _ => none
        | .ok rp =>
          let rstep : TaskStep := { step with parameters := rp }
          let r := tex k rstep
          if r.1 then
            some (storeResult jparse ctx k r.2 r.1, acc ++ [(rstep, r.2)], inv ++ [k])
          else none

/-- Step `k` fails when attempted in context `ctx`: either its parameter
resolution raises, or resolution succeeds and the tool reports failure. -/
def stepFailsAt (tex : Nat → TaskStep → Bool × JValue) (ctx : StepContext)
    (k : Nat) (step : TaskStep) : Prop :=
  (∃ e, replace_placeholders ctx step.parameters k = .error e) ∨
  (∃ rp, replace_placeholders ctx step.parameters k = .ok rp ∧
    (tex k { step with parameters := rp }).1 = false)

/-! ### Concrete fixtures used by counterexamples and witnesses -/

/-- A reparser oracle that never parses (only non-string results appear
in the concrete runs below, so it is never consulted). -/
def jparseNone : String → Option JValue := fun _ => none

/-- A geocoding-like step-0 payload with a single poi. -/
def poiPayload : JValue :=
  .obj [("pois", .arr [.obj [("location", .str "116.4,39.9"),
                             ("lng", .num "116.4"), ("lat", .num "39.9")]])]

/-- A weather payload as returned by `maps_weather`. -/
def weatherPayload : JValue :=
  .obj [("forecasts", .arr [.obj [("city", .str "深圳"), ("weather", .str "晴")]])]

/-- A three-step fixture plan: query weather, then a step that will
fail, then a step that must never run. -/
def fixturePlan : List TaskStep :=
  [⟨"查询深圳天气", "maps_weather", []⟩,
   ⟨"规划驾车路线", "maps_direction_driving", [("origin", .str "114.0,22.6")]⟩,
   ⟨"生成地图", "visualization_tool", []⟩]

/-- A tool oracle for the fixture plan: step 0 succeeds with the weather
payload, every later invocation fails with an error payload. -/
def fixtureTex : Nat → TaskStep → Bool × JValue := fun i _ =>
  if i == 0 then (true, weatherPayload)
  else (false, .obj [("error", .str "MCP 工具执行错误")])


/-! ## Lemmas: the placeholder scanner -/

theorem matchLit_length : ∀ (lit cs r : List Char), matchLit lit cs = some r → r.length ≤ cs.length := by
  intro lit
  induction lit with
  | nil =>
    intro cs r h
    simp only [matchLit, Option.some.injEq] at h
    simp [h]
  | cons c cs' ih =>
    intro cs r h
    cases cs with
    | nil => exact absurd h (by simp [matchLit])
    | cons d ds =>
      simp only [matchLit] at h
      split at h
      · exact Nat.le_succ_of_le (ih ds r h)
      · exact absurd h (by simp)

theorem matchLit_self_append : ∀ (lit rest : List Char), matchLit lit (lit ++ rest) = some rest := by
  intro lit rest
  induction lit with
  | nil => rfl
  | cons c cs ih => simp [matchLit, ih]

theorem spanChars_append (p : Char → Bool) :
    ∀ l : List Char, (spanChars p l).1 ++ (spanChars p l).2 = l := by
  intro l
  induction l with
  | nil => rfl
  | cons c cs ih =>
    simp only [spanChars]
    split
    · simpa using ih
    · rfl

theorem spanChars_exact (p : Char → Bool) :
    ∀ (l₁ : List Char) (c : Char) (l₂ : List Char), (∀ x ∈ l₁, p x = true) → p c = false →
      spanChars p (l₁ ++ c :: l₂) = (l₁, c :: l₂) := by
  intro l₁
  induction l₁ with
  | nil =>
    intro c l₂ _ hc
    simp [spanChars, hc]
  | cons a l₁ ih =>
    intro c l₂ hall hc
    have ha : p a = true := hall a (by simp)
    have := ih c l₂ (fun x hx => hall x (by simp [hx])) hc
    simp [spanChars, ha, this]

theorem matchPlaceholder_length :
    ∀ (l : List Char) (i : Nat) (p : Option String) (rest : List Char),
      matchPlaceholder l = some (i, p, rest) → rest.length < l.length := by
  intro l i p rest h
  cases l with
  | nil => exact absurd h (by simp [matchPlaceholder])
  | cons c r0 =>
    simp only [matchPlaceholder] at h
    split at h
    case isFalse => exact absurd h (by simp)
    case isTrue =>
      split at h
      · exact absurd h (by simp)
      · rename_i r1 h1
        have hl1 : r1.length ≤ r0.length := matchLit_length _ _ _ h1
        split at h
        · exact absurd h (by simp)
        · rename_i d ds r2 h2
          have hl2 : r2.length ≤ r1.length := by
            have hx := spanChars_append Char.isDigit r1
            rw [h2] at hx
            have := congrArg List.length hx
            simp at this
            omega
          split at h
          · exact absurd h (by simp)
          · rename_i r3 h3
            have hl3 : r3.length ≤ r2.length := matchLit_length _ _ _ h3
            split at h
            · exact absurd h (by simp)
            · rename_i c3 r4
              simp only [List.length_cons] at hl3
              split at h
              · -- the dotted-path branch
                split at h
                · exact absurd h (by simp)
                · rename_i pc ps r5 h5
                  have hl5 : r5.length ≤ r4.length := by
                    have hx := spanChars_append (fun x => !(x == '\x7d')) r4
                    rw [h5] at hx
                    have := congrArg List.length hx
                    simp at this
                    omega
                  split at h
                  · exact absurd h (by simp)
                  · rename_i c5 r6
                    simp only [List.length_cons] at hl5
                    split at h
                    · simp only [Option.some.injEq, Prod.mk.injEq] at h
                      obtain ⟨-, -, rfl⟩ := h
                      simp only [List.length_cons]
                      omega
                    · exact absurd h (by simp)
              · split at h
                · simp only [Option.some.injEq, Prod.mk.injEq] at h
                  obtain ⟨-, -, rfl⟩ := h
                  simp only [List.length_cons]
                  omega
                · exact absurd h (by simp)

theorem subGo_nil (res : List (Nat × JValue)) (cur fuel : Nat) :
    subGo res cur fuel [] = .ok [] := by
  cases fuel <;> rfl

theorem subGo_congr (res : List (Nat × JValue)) (cur : Nat) :
    ∀ (f₁ : Nat) (l : List Char) (f₂ : Nat), l.length ≤ f₁ → l.length ≤ f₂ →
      subGo res cur f₁ l = subGo res cur f₂ l := by
  intro f₁
  induction f₁ with
  | zero =>
    intro l f₂ h₁ _
    have : l = [] := List.eq_nil_of_length_eq_zero (Nat.le_zero.mp h₁)
    subst this
    rw [subGo_nil, subGo_nil]
  | succ f ih =>
    intro l f₂ h₁ h₂
    cases l with
    | nil => rw [subGo_nil, subGo_nil]
    | cons c cs =>
      cases f₂ with
      | zero => simp at h₂
      | succ g =>
        simp only [subGo]
        simp only [List.length_cons] at h₁ h₂
        cases hm : matchPlaceholder (c :: cs) with
        | some t =>
          obtain ⟨i, p, rest⟩ := t
          have hr : rest.length < cs.length + 1 := by
            simpa using matchPlaceholder_length _ _ _ _ hm
          simp only [hm]
          rw [ih rest g (by omega) (by omega)]
        | none =>
          simp only [hm]
          rw [ih cs g (by omega) (by omega)]

theorem subPH_match (res : List (Nat × JValue)) (cur : Nat) {l : List Char}
    {i : Nat} {p : Option String} {rest : List Char}
    (h : matchPlaceholder l = some (i, p, rest)) :
    subPH res cur l =
      match replacerFn res cur i p with
      | .error e => .error e
      | .ok s =>
        match subPH res cur rest with
        | .error e => .error e
        | .ok tail => .ok (s.toList ++ tail) := by
  cases l with
  | nil => exact absurd h (by simp [matchPlaceholder])
  | cons c cs =>
    have hr : rest.length < cs.length + 1 := by
      simpa using matchPlaceholder_length _ _ _ _ h
    show subGo res cur (c :: cs).length (c :: cs) = _
    simp only [List.length_cons, subGo, h]
    rw [subGo_congr res cur cs.length rest rest.length (by omega) (le_refl _)]
    rfl

theorem subPH_nomatch (res : List (Nat × JValue)) (cur : Nat) {c : Char} {cs : List Char}
    (h : matchPlaceholder (c :: cs) = none) :
    subPH res cur (c :: cs) =
      match subPH res cur cs with
      | .error e => .error e
      | .ok tail => .ok (c :: tail) := by
  show subGo res cur (c :: cs).length (c :: cs) = _
  simp only [List.length_cons, subGo, h]
  rfl

theorem subPH_of_noPH (res : List (Nat × JValue)) (cur : Nat) :
    ∀ l : List Char, noPH l = true → subPH res cur l = .ok l := by
  intro l
  induction l with
  | nil => intro _; rfl
  | cons c cs ih =>
    intro h
    simp only [noPH, List.tails_cons, List.all_cons, Bool.and_eq_true] at h
    obtain ⟨h1, h2⟩ := h
    have hm : matchPlaceholder (c :: cs) = none := Option.isNone_iff_eq_none.mp h1
    rw [subPH_nomatch res cur hm, ih (by simpa [noPH] using h2)]

theorem string_mk_toList (s : String) : String.mk s.toList = s := by
  cases s
  rfl

theorem matchPlaceholder_phChars (ds : List Char) (pathOpt : Option String) (rest : List Char)
    (hds : okDigitsB ds = true) (hp : okPathB pathOpt = true) :
    matchPlaceholder (phChars ds pathOpt ++ rest) = some (natOfDigits ds, pathOpt, rest) := by
  have hres : "_result".toList = '_' :: "result".toList := rfl
  obtain ⟨hne, hdig⟩ : ds.isEmpty = false ∧ ds.all Char.isDigit = true := by
    unfold okDigitsB at hds
    simp only [Bool.and_eq_true, Bool.not_eq_true'] at hds
    exact hds
  cases ds with
  | nil => simp at hne
  | cons d ds' =>
    have hall : ∀ x ∈ d :: ds', Char.isDigit x = true := List.all_eq_true.mp hdig
    cases pathOpt with
    | none =>
      have hspan := spanChars_exact Char.isDigit (d :: ds') '_'
        ("result".toList ++ '\x7d' :: rest) hall (by decide)
      have hml := matchLit_self_append ('_' :: "result".toList) ('\x7d' :: rest)
      simp only [List.cons_append, List.append_assoc, List.nil_append] at hspan hml
      simp only [phChars, List.cons_append, List.append_assoc, List.nil_append,
        List.singleton_append]
      simp only [matchPlaceholder]
      rw [if_pos (by decide)]
      simp only [matchLit_self_append, hres, List.cons_append, List.append_assoc, hspan, hml]
      rw [if_neg (by decide), if_pos (by decide)]
    | some q =>
      obtain ⟨hqne, hqok⟩ : q.toList.isEmpty = false ∧
          (q.toList.all fun c => !(c == '\x7d')) = true := by
        unfold okPathB at hp
        simp only [Bool.and_eq_true, Bool.not_eq_true'] at hp
        exact hp
      cases hq : q.toList with
      | nil => rw [hq] at hqne; simp at hqne
      | cons pc ps =>
        rw [hq] at hqok
        have hqall : ∀ x ∈ pc :: ps, (!(x == '\x7d')) = true := List.all_eq_true.mp hqok
        have hspan := spanChars_exact Char.isDigit (d :: ds') '_'
          ("result".toList ++ '.' :: pc :: ps ++ '\x7d' :: rest) hall (by decide)
        have hml := matchLit_self_append ('_' :: "result".toList)
          ('.' :: pc :: ps ++ '\x7d' :: rest)
        have hspan2 := spanChars_exact (fun x => !(x == '\x7d')) (pc :: ps) '\x7d'
          rest hqall (by decide)
        simp only [List.cons_append, List.append_assoc, List.nil_append] at hspan hml hspan2
        simp only [phChars, hq, List.cons_append, List.append_assoc, List.nil_append,
          List.singleton_append]
        simp only [matchPlaceholder]
        rw [if_pos (by decide)]
        simp only [matchLit_self_append, hres, List.cons_append, List.append_assoc, hspan, hml]
        rw [if_pos (by decide)]
        simp only [List.cons_append, List.append_assoc, hspan2]
        rw [if_pos (by decide)]
        rw [show String.mk (pc :: ps) = q from by rw [← hq]; exact string_mk_toList q]

/-! ## Lemmas: the recorded-results store and the run loop -/

theorem setAssocNat_keys (l : List (Nat × JValue)) (k : Nat) (v : JValue)
    (h : k ∉ l.map Prod.fst) :
    (setAssocNat l k v).map Prod.fst = l.map Prod.fst ++ [k] := by
  induction l with
  | nil => rfl
  | cons e rest ih =>
    obtain ⟨k0, v0⟩ := e
    simp only [List.map_cons, List.mem_cons] at h
    push_neg at h
    obtain ⟨h1, h2⟩ := h
    simp only [setAssocNat]
    rw [if_neg (by simpa using Ne.symm h1)]
    simp [ih h2]

theorem lookupResult_eq_none_iff (l : List (Nat × JValue)) (k : Nat) :
    lookupResult l k = none ↔ k ∉ l.map Prod.fst := by
  induction l with
  | nil => simp [lookupResult]
  | cons e rest ih =>
    obtain ⟨k0, v0⟩ := e
    simp only [lookupResult, List.map_cons, List.mem_cons]
    by_cases hk : k0 = k
    · subst hk
      simp
    · rw [if_neg (by simpa using hk)]
      simp [ih, Ne.symm hk, hk]

theorem set_result_results (ctx : StepContext) (i : Nat) (r : JValue) :
    (set_result ctx i r).results = setAssocNat ctx.results i r := by
  unfold set_result
  cases r <;> rfl

theorem storeResult_keys (jparse : String → Option JValue) (ctx : StepContext) (i : Nat)
    (r : JValue) (b : Bool) (h : i ∉ ctx.results.map Prod.fst) :
    (storeResult jparse ctx i r b).results.map Prod.fst = ctx.results.map Prod.fst ++ [i] := by
  unfold storeResult
  split <;> (try split) <;> rw [set_result_results, setAssocNat_keys _ _ _ h]

theorem execPrefix_spec (jparse : String → Option JValue) (tex : Nat → TaskStep → Bool × JValue)
    (steps : List TaskStep) :
    ∀ (k : Nat) (c : StepContext) (a : List (TaskStep × JValue)) (v : List Nat),
      execPrefix jparse tex steps k = some (c, a, v) →
      v = List.range k ∧ c.results.map Prod.fst = List.range k := by
  intro k
  induction k with
  | zero =>
    intro c a v h
    simp only [execPrefix, Option.some.injEq, Prod.mk.injEq] at h
    obtain ⟨h1, h2, h3⟩ := h
    subst h1; subst h3
    exact ⟨rfl, rfl⟩
  | succ k ih =>
    intro c a v h
    simp only [execPrefix] at h
    split at h
    · exact absurd h (by simp)
    · rename_i t c0 a0 v0 hpre
      split at h
      · exact absurd h (by simp)
      · rename_i step hstep
        split at h
        · exact absurd h (by simp)
        · rename_i rp hrp
          split at h
          · simp only [Option.some.injEq, Prod.mk.injEq] at h
            obtain ⟨h1, h2, h3⟩ := h
            obtain ⟨hv0, hc0⟩ := ih c0 a0 v0 hpre
            subst h1; subst h3
            constructor
            · rw [hv0, ← List.range_succ]
            · rw [storeResult_keys _ _ _ _ _ (by rw [hc0]; simp), hc0, ← List.range_succ]
          · exact absurd h (by simp)

theorem runLoop_execPrefix (jparse : String → Option JValue)
    (tex : Nat → TaskStep → Bool × JValue) (strat : ExecutionStrategy)
    (steps : List TaskStep) :
    ∀ (k : Nat) (c : StepContext) (a : List (TaskStep × JValue)) (v : List Nat),
      execPrefix jparse tex steps k = some (c, a, v) →
      runLoop jparse tex strat steps 0 {} [] [] =
        runLoop jparse tex strat (steps.drop k) k c a v := by
  intro k
  induction k with
  | zero =>
    intro c a v h
    simp only [execPrefix, Option.some.injEq, Prod.mk.injEq] at h
    obtain ⟨h1, h2, h3⟩ := h
    subst h1; subst h2; subst h3
    rfl
  | succ k ih =>
    intro c a v h
    simp only [execPrefix] at h
    split at h
    · exact absurd h (by simp)
    · rename_i t c0 a0 v0 hpre
      split at h
      · exact absurd h (by simp)
      · rename_i step hstep
        split at h
        · exact absurd h (by simp)
        · rename_i rp hrp
          split at h
          · rename_i hsucc
            simp only [Option.some.injEq, Prod.mk.injEq] at h
            obtain ⟨h1, h2, h3⟩ := h
            rw [ih c0 a0 v0 hpre]
            have hk : k < steps.length := (List.getElem?_eq_some.mp hstep).1
            have hdrop : steps.drop k = step :: steps.drop (k + 1) := by
              rw [List.drop_eq_getElem_cons hk, (List.getElem?_eq_some.mp hstep).2]
            rw [hdrop]
            simp only [runLoop, hrp]
            rw [if_pos hsucc]
            rw [h1, h2, h3]
          · exact absurd h (by simp)

theorem subPH_phChars (res : List (Nat × JValue)) (cur : Nat) (ds : List Char)
    (pathOpt : Option String) (rest : List Char) (hds : okDigitsB ds = true)
    (hp : okPathB pathOpt = true) :
    subPH res cur (phChars ds pathOpt ++ rest) =
      match replacerFn res cur (natOfDigits ds) pathOpt with
      | .error e => .error e
      | .ok s =>
        match subPH res cur rest with
        | .error e => .error e
        | .ok tail => .ok (s.toList ++ tail) :=
  subPH_match res cur (matchPlaceholder_phChars ds pathOpt rest hds hp)

theorem toList_phString_append (ds : List Char) (pathOpt : Option String) (sfx : String) :
    (phString ds pathOpt ++ sfx).toList = phChars ds pathOpt ++ sfx.toList := by
  cases sfx
  rfl

/-! ## The claims -/

/-- C4: for every current step index `i` and every placeholder
referencing step `j` with `j ≥ i` (here written with an explicit digit
run `ds`, so that `j = natOfDigits ds` covers leading zeros as well),
`replace_placeholders` always raises the forward-reference `ValueError`
and never returns a resolved value for that placeholder — whatever the
recorded results, the parameter key, the placeholder's path and the rest
of the string. -/
theorem claim_C4_forward_reference (ctx : StepContext) (key : String) (i : Nat)
    (ds : List Char) (pathOpt : Option String) (sfx : String)
    (hds : okDigitsB ds = true) (hp : okPathB pathOpt = true)
    (hij : i ≤ natOfDigits ds) :
    replace_placeholders ctx [(key, .str (phString ds pathOpt ++ sfx))] i =
      .error (.forwardRef i (natOfDigits ds)) := by
  simp only [replace_placeholders, replaceFields, replace_value, replaceString]
  rw [toList_phString_append]
  rw [subPH_phChars ctx.results i ds pathOpt sfx.toList hds hp]
  rw [show replacerFn ctx.results i (natOfDigits ds) pathOpt =
        Except.error (.forwardRef i (natOfDigits ds)) from by
      unfold replacerFn; rw [if_pos hij]]

/-- C4 witness: step 1 referencing itself via `\x7bstep_1_result\x7d`
raises the forward-reference error. -/
theorem claim_C4_witness :
    1 ≤ natOfDigits ['1'] ∧
      replace_placeholders {} [("origin", .str "\x7bstep_1_result\x7d")] 1 =
        .error (.forwardRef 1 1) := by
  constructor
  · decide
  · have h := claim_C4_forward_reference {} "origin" 1 ['1'] none "" (by decide) rfl (by decide)
    have he : phString ['1'] none ++ "" = "\x7bstep_1_result\x7d" := by decide
    rw [he] at h
    exact h

/-- C7: `replace_placeholders` is a pure function of the parameters, the
results snapshot and the current step index: two contexts agreeing on
their recorded results produce identical outputs, whatever their
metadata or step count. -/
theorem claim_C7_determinism (ctx₁ ctx₂ : StepContext)
    (h : ctx₁.results = ctx₂.results) (params : List (String × JValue)) (i : Nat) :
    replace_placeholders ctx₁ params i = replace_placeholders ctx₂ params i := by
  unfold replace_placeholders
  rw [h]

/-- C7 witness: two contexts with the same results but different
metadata and step counts resolve identically. -/
theorem claim_C7_witness :
    (StepContext.results ⟨[(0, poiPayload)], [("m", .str "x")], 9⟩ =
        StepContext.results ⟨[(0, poiPayload)], [], 1⟩) ∧
      replace_placeholders ⟨[(0, poiPayload)], [("m", .str "x")], 9⟩
          [("k", .str "\x7bstep_0_result.pois[0].lat\x7d")] 1 =
        replace_placeholders ⟨[(0, poiPayload)], [], 1⟩
          [("k", .str "\x7bstep_0_result.pois[0].lat\x7d")] 1 :=
  ⟨rfl, claim_C7_determinism _ _ rfl _ _⟩

/-- C8: against the recorded step-0 payload
`{"pois": [{"location": ..., "lng": 116.4, "lat": 39.9}]}`, the
placeholder `\x7bstep_0_result.pois[0].lng\x7d` resolves to the string
`"116.4"` at every current step index `≥ 1`, and the out-of-range index
`pois[5]` resolves to the empty string without raising. -/
theorem claim_C8_round_trip (i : Nat) (h : 1 ≤ i) :
    replace_placeholders ⟨[(0, poiPayload)], [], 1⟩
        [("lng", .str "\x7bstep_0_result.pois[0].lng\x7d")] i =
      .ok [("lng", .str "116.4")] ∧
    replace_placeholders ⟨[(0, poiPayload)], [], 1⟩
        [("lng", .str "\x7bstep_0_result.pois[5].lng\x7d")] i =
      .ok [("lng", .str "")] := by
  have h0 : ¬ (i ≤ natOfDigits ['0']) := by
    rw [show natOfDigits ['0'] = 0 from rfl]
    omega
  constructor
  · simp only [replace_placeholders, replaceFields, replace_value, replaceString]
    rw [show ("\x7bstep_0_result.pois[0].lng\x7d" : String).toList =
          phChars ['0'] (some "pois[0].lng") ++ ([] : List Char) from by decide]
    rw [subPH_phChars _ i ['0'] (some "pois[0].lng") [] (by decide) (by decide)]
    rw [show replacerFn [(0, poiPayload)] i (natOfDigits ['0']) (some "pois[0].lng") =
          .ok "116.4" from by
        unfold replacerFn
        rw [if_neg h0]
        rfl]
    rfl
  · simp only [replace_placeholders, replaceFields, replace_value, replaceString]
    rw [show ("\x7bstep_0_result.pois[5].lng\x7d" : String).toList =
          phChars ['0'] (some "pois[5].lng") ++ ([] : List Char) from by decide]
    rw [subPH_phChars _ i ['0'] (some "pois[5].lng") [] (by decide) (by decide)]
    rw [show replacerFn [(0, poiPayload)] i (natOfDigits ['0']) (some "pois[5].lng") =
          .ok "" from by
        unfold replacerFn
        rw [if_neg h0]
        rfl]
    rfl

/-- C8 witness: the round trip at current step index 1. -/
theorem claim_C8_witness :
    1 ≤ 1 ∧
      replace_placeholders ⟨[(0, poiPayload)], [], 1⟩
          [("lng", .str "\x7bstep_0_result.pois[0].lng\x7d")] 1 =
        .ok [("lng", .str "116.4")] :=
  ⟨by decide, (claim_C8_round_trip 1 (by decide)).1⟩

/-- C10: a string parameter value none of whose positions matches the
placeholder grammar `\x7bstep_N_result\x7d` /
`\x7bstep_N_result.path\x7d` is returned by `replace_placeholders`
verbatim — no substitution, no empty-string replacement, and no error —
whatever the recorded results and the current step index.  In
particular `\x7bstep_0_result[0].name\x7d`, where a bracket follows
`result` without a dot, matches at no position and passes through. -/
theorem claim_C10_non_grammar_verbatim (ctx : StepContext) (i : Nat) (key s : String)
    (h : noPH s.toList = true) :
    replace_placeholders ctx [(key, .str s)] i = .ok [(key, .str s)] := by
  simp only [replace_placeholders, replaceFields, replace_value, replaceString]
  rw [subPH_of_noPH ctx.results i s.toList h]
  rfl

/-- C10 witness: `\x7bstep_0_result[0].name\x7d` survives verbatim even
with a step-0 result recorded. -/
theorem claim_C10_witness :
    noPH ("\x7bstep_0_result[0].name\x7d" : String).toList = true ∧
      replace_placeholders ⟨[(0, poiPayload)], [], 1⟩
          [("name", .str "\x7bstep_0_result[0].name\x7d")] 3 =
        .ok [("name", .str "\x7bstep_0_result[0].name\x7d")] :=
  ⟨by decide,
   claim_C10_non_grammar_verbatim ⟨[(0, poiPayload)], [], 1⟩ 3 "name" _ (by decide)⟩

/-- C2 counterexample: the path `lng)` contains `)`, yet resolution of
`\x7bstep_0_result.lng)\x7d` does not raise `UnsupportedExpressionError`
— neither blacklist regex matches (the method-call pattern needs
`.ident(` and the arithmetic class has no parentheses), so the path
flows into plain data lookup and resolves to the empty string. -/
theorem claim_C2_counterexample :
    hasMethodCall "lng)" = false ∧ hasArith "lng)" = false ∧
      resolve_path poiPayload "lng)" = .ok none ∧
      replace_placeholders ⟨[(0, poiPayload)], [], 1⟩
          [("destination", .str "\x7bstep_0_result.lng)\x7d")] 1 =
        .ok [("destination", .str "")] :=
  ⟨rfl, rfl, rfl, rfl⟩

/-- C2 amended: a path matching the method-call pattern (a dot, an
identifier, optional whitespace, then an opening parenthesis), or
containing `*`, `/`, `%`, `<`, `>`, or a `+`/`-` not immediately
preceded by `e`, makes `resolve_path` raise; a parenthesis outside the
method-call pattern is not rejected and flows into plain data lookup. -/
theorem claim_C2_amended (obj : JValue) (path : String)
    (h : hasMethodCall path = true ∨ hasArith path = true) :
    resolve_path obj path =
      .error (if hasMethodCall path then PathError.methodCall path
              else PathError.arithExpr path) := by
  have hemp : (path == "") = false := by
    cases hq : (path == "") with
    | false => rfl
    | true =>
      exfalso
      have : path = "" := by simpa using hq
      subst this
      rcases h with h | h
      · exact absurd h (by decide)
      · exact absurd h (by decide)
  unfold resolve_path
  rw [if_neg (by simp [hemp])]
  cases hm : hasMethodCall path with
  | true => simp
  | false =>
    rcases h with h | h
    · rw [hm] at h; exact absurd h (by simp)
    · simp [h]

/-- C2 amended witness: the division in `distance/1000` raises the
arithmetic-expression error. -/
theorem claim_C2_amended_witness :
    (hasMethodCall "distance/1000" = true ∨ hasArith "distance/1000" = true) ∧
      resolve_path poiPayload "distance/1000" = .error (.arithExpr "distance/1000") := by
  constructor
  · exact Or.inr (by decide)
  · have h := claim_C2_amended poiPayload "distance/1000" (Or.inr (by decide))
    simpa using h

/-- C3 counterexample: the step-0 payload has no key `results`, yet the
path `results[0].location` does not resolve to the empty string — the
compatibility rewrap substitutes the `pois` list for the missing
`results` key and the lookup yields `116.4,39.9`. -/
theorem claim_C3_counterexample :
    jget [("pois", .arr [.obj [("location", .str "116.4,39.9"),
        ("lng", .num "116.4"), ("lat", .num "39.9")]])] "results" = none ∧
      poiPayload = .obj [("pois", .arr [.obj [("location", .str "116.4,39.9"),
        ("lng", .num "116.4"), ("lat", .num "39.9")]])] ∧
      resolve_path poiPayload "results[0].location" = .ok (some (.str "116.4,39.9")) ∧
      replace_placeholders ⟨[(0, poiPayload)], [], 1⟩
          [("origin", .str "\x7bstep_0_result.results[0].location\x7d")] 1 =
        .ok [("origin", .str "116.4,39.9")] :=
  ⟨rfl, rfl, rfl, rfl⟩

/-- C3 amended: a first path segment that names a key absent from the
mapping payload resolves to `None` (hence the empty string at the
replacer) — provided the compatibility rewrap for the special first
segments `results` / `paths` / `pois` leaves the lookup key absent; the
lookup is performed against the rewrapped payload, not the raw one. -/
theorem claim_C3_missing_key_empty (fields gs : List (String × JValue)) (path : String)
    (p₁ : String) (rest : List String)
    (hsplit : splitPath path = p₁ :: rest)
    (hemp : (path == "") = false)
    (hmc : hasMethodCall path = false) (ha : hasArith path = false)
    (hdig : isDigits p₁ = false)
    (hwrap : compatAlias (.obj fields) p₁ = .obj gs)
    (hmiss : jget gs p₁ = none) :
    resolve_path (.obj fields) path = .ok none ∧
      (∀ (res : List (Nat × JValue)) (cur idx : Nat), idx < cur →
        lookupResult res idx = some (.obj fields) →
        replacerFn res cur idx (some path) = .ok "") := by
  have h1 : resolve_path (.obj fields) path = .ok none := by
    unfold resolve_path
    rw [if_neg (by simp [hemp]), if_neg (by simp [hmc]), if_neg (by simp [ha])]
    simp only [hsplit]
    rw [hwrap]
    simp [walkPath, walkSeg, hdig, hmiss]
  refine ⟨h1, ?_⟩
  intro res cur idx hlt hres
  unfold replacerFn
  rw [if_neg (by omega), hres]
  simp [h1]

/-- C3 amended witness: the missing key `address` (no compatibility
rewrap applies) resolves to the empty string. -/
theorem claim_C3_witness :
    jget [("name", .str "故宫")] "address" = none ∧
      replacerFn [(0, .obj [("name", .str "故宫")])] 2 0 (some "address") = .ok "" :=
  ⟨rfl,
   (claim_C3_missing_key_empty [("name", .str "故宫")] [("name", .str "故宫")]
      "address" "address" [] rfl rfl rfl rfl rfl rfl rfl).2
     [(0, .obj [("name", .str "故宫")])] 2 0 (by decide) rfl⟩

theorem runPlan_fail_split (jparse : String → Option JValue)
    (tex : Nat → TaskStep → Bool × JValue) (strat : ExecutionStrategy)
    (steps : List TaskStep) (k : Nat) (c : StepContext)
    (a : List (TaskStep × JValue)) (v : List Nat) (stepk : TaskStep)
    (hpre : execPrefix jparse tex steps k = some (c, a, v))
    (hstep : steps[k]? = some stepk)
    (hfail : stepFailsAt tex c k stepk) :
    (∃ e, replace_placeholders c stepk.parameters k = .error e ∧
      runPlan jparse tex strat steps = ⟨c, a, v,
        match strat with
        | .fail_fast => .aborted k (paramFailReply stepk.goal)
        | .graceful_degrade => .degraded k⟩) ∨
    (∃ rp, replace_placeholders c stepk.parameters k = .ok rp ∧
      (tex k { stepk with parameters := rp }).1 = false ∧
      runPlan jparse tex strat steps = ⟨c, a, v ++ [k],
        match strat with
        | .fail_fast =>
          .aborted k (toolFailReply stepk.goal (tex k { stepk with parameters := rp }).2)
        | .graceful_degrade => .degraded k⟩) := by
  have hk : k < steps.length := (List.getElem?_eq_some.mp hstep).1
  have hdrop : steps.drop k = stepk :: steps.drop (k + 1) := by
    rw [List.drop_eq_getElem_cons hk, (List.getElem?_eq_some.mp hstep).2]
  cases steps with
  | nil => simp at hk
  | cons s0 srest =>
    have hrun : runPlan jparse tex strat (s0 :: srest) =
        runLoop jparse tex strat ((s0 :: srest).drop k) k c a v := by
      show runLoop jparse tex strat (s0 :: srest) 0 {} [] [] = _
      exact runLoop_execPrefix jparse tex strat (s0 :: srest) k c a v hpre
    rcases hfail with ⟨e, he⟩ | ⟨rp, hrp, htex⟩
    · left
      refine ⟨e, he, ?_⟩
      rw [hrun, hdrop]
      simp only [runLoop, he]
      cases strat <;> rfl
    · right
      refine ⟨rp, hrp, htex, ?_⟩
      rw [hrun, hdrop]
      simp only [runLoop, hrp]
      rw [if_neg (by simp [htex])]
      cases strat <;> rfl

/-- C1, corrected: a `StepResult` is recorded into the Step Context at
index `i` only when the attempt of step `i` succeeds.  When the first
`k` steps succeed and step `k` fails (tool execution or parameter
resolution), the recorded indices are exactly `0, ..., k-1`: the failed
step `k` is never recorded — under both strategies the loop leaves step
`k` unrecorded (returning under FailFast, breaking under
GracefulDegrade) — and no step beyond `k` is attempted. -/
theorem claim_C1_failure_not_recorded (jparse : String → Option JValue)
    (tex : Nat → TaskStep → Bool × JValue) (strat : ExecutionStrategy)
    (steps : List TaskStep) (k : Nat) (c : StepContext)
    (a : List (TaskStep × JValue)) (v : List Nat) (stepk : TaskStep)
    (hpre : execPrefix jparse tex steps k = some (c, a, v))
    (hstep : steps[k]? = some stepk)
    (hfail : stepFailsAt tex c k stepk) :
    (runPlan jparse tex strat steps).ctx.results.map Prod.fst = List.range k ∧
    lookupResult (runPlan jparse tex strat steps).ctx.results k = none ∧
    (∀ j, j < k → lookupResult (runPlan jparse tex strat steps).ctx.results j ≠ none) ∧
    (∀ j ∈ (runPlan jparse tex strat steps).invoked, j ≤ k) := by
  obtain ⟨hv, hc⟩ := execPrefix_spec jparse tex steps k c a v hpre
  have hkeys : ∀ (st : RunState), st.ctx = c →
      st.ctx.results.map Prod.fst = List.range k ∧
      lookupResult st.ctx.results k = none ∧
      (∀ j, j < k → lookupResult st.ctx.results j ≠ none) := by
    intro st hst
    rw [hst]
    refine ⟨hc, ?_, ?_⟩
    · rw [lookupResult_eq_none_iff, hc]
      simp
    · intro j hj hnone
      rw [lookupResult_eq_none_iff, hc] at hnone
      simp at hnone
      omega
  rcases runPlan_fail_split jparse tex strat steps k c a v stepk hpre hstep hfail with
    ⟨e, he, hrun⟩ | ⟨rp, hrp, htex, hrun⟩
  · obtain ⟨h1, h2, h3⟩ := hkeys (runPlan jparse tex strat steps) (by rw [hrun])
    refine ⟨h1, h2, h3, ?_⟩
    intro j hj
    rw [hrun] at hj
    simp only at hj
    rw [hv] at hj
    have := List.mem_range.mp hj
    omega
  · obtain ⟨h1, h2, h3⟩ := hkeys (runPlan jparse tex strat steps) (by rw [hrun])
    refine ⟨h1, h2, h3, ?_⟩
    intro j hj
    rw [hrun] at hj
    simp only at hj
    rw [hv] at hj
    rcases List.mem_append.mp hj with hj | hj
    · have := List.mem_range.mp hj
      omega
    · simp at hj
      omega

/-- C1 counterexample: in the fixture run (step 0 succeeds, step 1's
tool fails, strategy GracefulDegrade) the engine attempts step 1
(`execute_step` is invoked on indices 0 and 1) but no `StepResult` is
recorded at index 1 — the failed step is not recorded, refuting the
unconditional-recording claim. -/
theorem claim_C1_counterexample :
    (runPlan jparseNone fixtureTex .graceful_degrade fixturePlan).invoked = [0, 1] ∧
      lookupResult (runPlan jparseNone fixtureTex .graceful_degrade fixturePlan).ctx.results 1 =
        none ∧
      (runPlan jparseNone fixtureTex .graceful_degrade fixturePlan).outcome = .degraded 1 :=
  ⟨rfl, rfl, rfl⟩

/-- C1 witness: the corrected statement at the fixture run. -/
theorem claim_C1_witness :
    (runPlan jparseNone fixtureTex .graceful_degrade fixturePlan).ctx.results.map Prod.fst =
        List.range 1 ∧
      lookupResult (runPlan jparseNone fixtureTex .graceful_degrade fixturePlan).ctx.results 1 =
        none ∧
      (∀ j, j < 1 →
        lookupResult (runPlan jparseNone fixtureTex .graceful_degrade fixturePlan).ctx.results j ≠
          none) ∧
      (∀ j ∈ (runPlan jparseNone fixtureTex .graceful_degrade fixturePlan).invoked, j ≤ 1) :=
  claim_C1_failure_not_recorded jparseNone fixtureTex .graceful_degrade fixturePlan 1
    ⟨[(0, weatherPayload)], [], 1⟩
    [(⟨"查询深圳天气", "maps_weather", []⟩, weatherPayload)] [0]
    ⟨"规划驾车路线", "maps_direction_driving", [("origin", .str "114.0,22.6")]⟩
    rfl rfl (Or.inr ⟨[("origin", .str "114.0,22.6")], rfl, rfl⟩)

/-- C5: when the first `k` steps succeed, step `k` fails (tool error or
resolution error) and the strategy is FailFast, no step with index
greater than `k` is executed (`execute_step` is invoked on indices
`≤ k` only) and the run aborts with a reply built from the failing
step's goal — `paramFailReply` for a resolution failure,
`toolFailReply` (which renders the failure payload) for a tool
failure. -/
theorem claim_C5_fail_fast (jparse : String → Option JValue)
    (tex : Nat → TaskStep → Bool × JValue) (steps : List TaskStep) (k : Nat)
    (c : StepContext) (a : List (TaskStep × JValue)) (v : List Nat) (stepk : TaskStep)
    (hpre : execPrefix jparse tex steps k = some (c, a, v))
    (hstep : steps[k]? = some stepk)
    (hfail : stepFailsAt tex c k stepk) :
    (∀ j ∈ (runPlan jparse tex .fail_fast steps).invoked, j ≤ k) ∧
    (∃ reply, (runPlan jparse tex .fail_fast steps).outcome = .aborted k reply ∧
      (reply = paramFailReply stepk.goal ∨
       ∃ failurePayload, reply = toolFailReply stepk.goal failurePayload)) := by
  obtain ⟨hv, -⟩ := execPrefix_spec jparse tex steps k c a v hpre
  rcases runPlan_fail_split jparse tex .fail_fast steps k c a v stepk hpre hstep hfail with
    ⟨e, he, hrun⟩ | ⟨rp, hrp, htex, hrun⟩
  · constructor
    · intro j hj
      rw [hrun] at hj
      simp only at hj
      rw [hv] at hj
      have := List.mem_range.mp hj
      omega
    · exact ⟨paramFailReply stepk.goal, by rw [hrun], Or.inl rfl⟩
  · constructor
    · intro j hj
      rw [hrun] at hj
      simp only at hj
      rw [hv] at hj
      rcases List.mem_append.mp hj with hj | hj
      · have := List.mem_range.mp hj
        omega
      · simp at hj
        omega
    · exact ⟨toolFailReply stepk.goal (tex k { stepk with parameters := rp }).2,
        by rw [hrun], Or.inr ⟨_, rfl⟩⟩

/-- C5 witness: the fixture plan under FailFast aborts at step 1. -/
theorem claim_C5_witness :
    (∀ j ∈ (runPlan jparseNone fixtureTex .fail_fast fixturePlan).invoked, j ≤ 1) ∧
    (∃ reply, (runPlan jparseNone fixtureTex .fail_fast fixturePlan).outcome =
        .aborted 1 reply ∧
      (reply = paramFailReply (TaskStep.goal ⟨"规划驾车路线", "maps_direction_driving",
          [("origin", .str "114.0,22.6")]⟩) ∨
       ∃ failurePayload, reply = toolFailReply (TaskStep.goal ⟨"规划驾车路线",
          "maps_direction_driving", [("origin", .str "114.0,22.6")]⟩) failurePayload)) :=
  claim_C5_fail_fast jparseNone fixtureTex fixturePlan 1
    ⟨[(0, weatherPayload)], [], 1⟩
    [(⟨"查询深圳天气", "maps_weather", []⟩, weatherPayload)] [0]
    ⟨"规划驾车路线", "maps_direction_driving", [("origin", .str "114.0,22.6")]⟩
    rfl rfl (Or.inr ⟨[("origin", .str "114.0,22.6")], rfl, rfl⟩)

/-- C6: when the first `k` steps succeed, step `k` fails and the
strategy is GracefulDegrade, no step with index greater than `k` is
executed, but control falls through to result integration, and the
`steps_results` handed to it — hence the extracted manifest — are
exactly those of the successful steps before `k`. -/
theorem claim_C6_graceful_degrade (jparse : String → Option JValue)
    (tex : Nat → TaskStep → Bool × JValue) (steps : List TaskStep) (k : Nat)
    (c : StepContext) (a : List (TaskStep × JValue)) (v : List Nat) (stepk : TaskStep)
    (hpre : execPrefix jparse tex steps k = some (c, a, v))
    (hstep : steps[k]? = some stepk)
    (hfail : stepFailsAt tex c k stepk) :
    (runPlan jparse tex .graceful_degrade steps).outcome = .degraded k ∧
    integrationRuns (runPlan jparse tex .graceful_degrade steps).outcome = true ∧
    (∀ j ∈ (runPlan jparse tex .graceful_degrade steps).invoked, j ≤ k) ∧
    (runPlan jparse tex .graceful_degrade steps).steps_results = a ∧
    extract_key_information (runPlan jparse tex .graceful_degrade steps).steps_results =
      extract_key_information a := by
  obtain ⟨hv, -⟩ := execPrefix_spec jparse tex steps k c a v hpre
  rcases runPlan_fail_split jparse tex .graceful_degrade steps k c a v stepk hpre hstep hfail with
    ⟨e, he, hrun⟩ | ⟨rp, hrp, htex, hrun⟩
  · refine ⟨by rw [hrun], by rw [hrun]; rfl, ?_, by rw [hrun], by rw [hrun]⟩
    intro j hj
    rw [hrun] at hj
    simp only at hj
    rw [hv] at hj
    have := List.mem_range.mp hj
    omega
  · refine ⟨by rw [hrun], by rw [hrun]; rfl, ?_, by rw [hrun], by rw [hrun]⟩
    intro j hj
    rw [hrun] at hj
    simp only at hj
    rw [hv] at hj
    rcases List.mem_append.mp hj with hj | hj
    · have := List.mem_range.mp hj
      omega
    · simp at hj
      omega

/-- C6 witness: the fixture plan under GracefulDegrade degrades at step
1 while the manifest still carries step 0's weather artifact. -/
theorem claim_C6_witness :
    ((runPlan jparseNone fixtureTex .graceful_degrade fixturePlan).outcome = .degraded 1 ∧
     integrationRuns (runPlan jparseNone fixtureTex .graceful_degrade fixturePlan).outcome =
        true ∧
     (∀ j ∈ (runPlan jparseNone fixtureTex .graceful_degrade fixturePlan).invoked, j ≤ 1) ∧
     (runPlan jparseNone fixtureTex .graceful_degrade fixturePlan).steps_results =
        [(⟨"查询深圳天气", "maps_weather", []⟩, weatherPayload)] ∧
     extract_key_information
        (runPlan jparseNone fixtureTex .graceful_degrade fixturePlan).steps_results =
       extract_key_information [(⟨"查询深圳天气", "maps_weather", []⟩, weatherPayload)]) ∧
    (extract_key_information
        (runPlan jparseNone fixtureTex .graceful_degrade fixturePlan).steps_results).weather_data =
      [.obj [("city", .str "深圳"), ("weather", .str "晴")]] :=
  ⟨claim_C6_graceful_degrade jparseNone fixtureTex fixturePlan 1
      ⟨[(0, weatherPayload)], [], 1⟩
      [(⟨"查询深圳天气", "maps_weather", []⟩, weatherPayload)] [0]
      ⟨"规划驾车路线", "maps_direction_driving", [("origin", .str "114.0,22.6")]⟩
      rfl rfl (Or.inr ⟨[("origin", .str "114.0,22.6")], rfl, rfl⟩),
   rfl⟩

theorem stepsOfList_none_of_mem (d : JValue) (hbad : descriptorToStep d = none) :
    ∀ ds : List JValue, d ∈ ds → stepsOfList ds = none := by
  intro ds
  induction ds with
  | nil => intro h; cases h
  | cons e es ih =>
    intro h
    rcases List.mem_cons.mp h with he | he
    · subst he
      simp [stepsOfList, hbad]
    · simp only [stepsOfList]
      cases hd : descriptorToStep e with
      | none => rfl
      | some s => rw [ih he]

/-- C9: if any descriptor of the raw plan fails structural validation
(for example one lacking `tool_name` or `goal`), the entire plan is
rejected before any step runs: `plan_tasks` yields no steps, no tool is
invoked, and no partial plan is executed — the run returns with the
no-plan reply. -/
theorem claim_C9_reject_whole_plan (jparse : String → Option JValue)
    (tex : Nat → TaskStep → Bool × JValue) (strat : ExecutionStrategy)
    (ds : List JValue) (d : JValue) (hmem : d ∈ ds)
    (hbad : descriptorToStep d = none) :
    plan_tasks (some (.arr ds)) = [] ∧
    (runFromPlan jparse tex strat (some (.arr ds))).invoked = [] ∧
    (runFromPlan jparse tex strat (some (.arr ds))).outcome = .noPlan := by
  have hsteps : stepsOfList ds = none := stepsOfList_none_of_mem d hbad ds hmem
  have hplan : plan_tasks (some (.arr ds)) = [] := by
    cases ds with
    | nil => cases hmem
    | cons d0 ds' => simp [plan_tasks, hsteps]
  refine ⟨hplan, ?_, ?_⟩ <;>
    · show _ = _
      unfold runFromPlan
      rw [hplan]
      rfl

/-- C9 witness: a descriptor missing `tool_name` rejects the whole
plan and invokes no tool. -/
theorem claim_C9_witness :
    descriptorToStep (.obj [("goal", .str "地理编码")]) = none ∧
      plan_tasks (some (.arr [.obj [("goal", .str "地理编码")],
        .obj [("goal", .str "查询天气"), ("tool_name", .str "maps_weather")]])) = [] ∧
      (runFromPlan jparseNone fixtureTex .fail_fast (some (.arr [.obj [("goal", .str "地理编码")],
        .obj [("goal", .str "查询天气"), ("tool_name", .str "maps_weather")]]))).invoked = [] :=
  ⟨rfl,
   (claim_C9_reject_whole_plan jparseNone fixtureTex .fail_fast
      [.obj [("goal", .str "地理编码")],
       .obj [("goal", .str "查询天气"), ("tool_name", .str "maps_weather")]]
      (.obj [("goal", .str "地理编码")]) (by simp) rfl).1,
   (claim_C9_reject_whole_plan jparseNone fixtureTex .fail_fast
      [.obj [("goal", .str "地理编码")],
       .obj [("goal", .str "查询天气"), ("tool_name", .str "maps_weather")]]
      (.obj [("goal", .str "地理编码")]) (by simp) rfl).2.1⟩
